import Mathlib

/-!
Verification development for the ab-test-library variant-assignment and
cache-consistency engine.  The TypeScript sources are shallowly embedded:
JavaScript 32-bit unsigned integer arithmetic becomes Nat arithmetic with
explicit reduction modulo 2^32, JavaScript doubles become exact rationals
(the 1e-10 epsilon and split weights are modelled as the rationals they
denote; none of the proved properties depends on double rounding),
localStorage becomes an explicit association list threaded through the
operations, and every fallible operation returns its error explicitly.
-/

namespace ABTest

/-! ### Hashing engine (src/unnamed/part_008, hash.ts)

JavaScript String.prototype.charCodeAt iterates UTF-16 code units, so a
Lean Char (a Unicode scalar value) is first expanded to its UTF-16
encoding: one code unit below U+10000, a surrogate pair above. -/

def utf16Units (c : Char) : List Nat :=
  if c.toNat < 0x10000 then [c.toNat]
  else [0xD800 + (c.toNat - 0x10000) / 0x400, 0xDC00 + (c.toNat - 0x10000) % 0x400]

def stringCodeUnits (s : String) : List Nat :=
  s.data.flatMap utf16Units

/-- One step of the loop body of hashToBucket: h ^= code; h = Math.imul(h, 16777619).
Math.imul is 32-bit multiplication; signed versus unsigned representation does not
affect the residue modulo 2^32, so the step is XOR then multiply modulo 2^32. -/
def fnv1aStep (h c : Nat) : Nat :=
  (Nat.xor h c * 16777619) % 4294967296

/-- The 32-bit FNV-1a style hash of hashToBucket before the final division:
offset basis 2166136261, then fnv1aStep for every UTF-16 code unit. -/
def fnv1a32 (s : String) : Nat :=
  (stringCodeUnits s).foldl fnv1aStep 2166136261

/-- hashToBucket from hash.ts: the 32-bit hash divided by 0x100000000,
as an exact rational. -/
def hashToBucket (s : String) : ℚ :=
  (fnv1a32 s : ℚ) / 4294967296

/-- The caller-owned identity record { id, email }. -/
structure Identity where
  id : String
  email : String
deriving DecidableEq, Repr

/-- Process-wide hashing configuration (core/config.ts). -/
structure HashingConfig where
  salt : String
  version : Nat
deriving DecidableEq, Repr

/-- Default hashing configuration from core/config.ts. -/
def defaultHashingConfig : HashingConfig :=
  { salt := "ablib-dev", version := 1 }

/-- The template literal salt:version:id+email:experimentKey built by
hashToBucketWithSalt. -/
def saltedSeed (opts : HashingConfig) (user : Identity) (experimentKey : String) : String :=
  opts.salt ++ ":" ++ toString opts.version ++ ":" ++ user.id ++ user.email ++ ":" ++ experimentKey

/-- hashToBucketWithSalt from hash.ts, with the options supplied (the
variant assigner always passes the process-wide config explicitly). -/
def hashToBucketWithSalt (user : Identity) (experimentKey : String) (opts : HashingConfig) : ℚ :=
  hashToBucket (saltedSeed opts user experimentKey)

/-! ### Split normalizer (src/unnamed/part_009, splitUtils.ts) -/

structure NormalizedSplit where
  key : String
  weight : ℚ
  cumulative : ℚ
deriving DecidableEq, Repr

/-- The JavaScript literal 1e-10, modelled as the exact rational it denotes. -/
def epsilon : ℚ := 1 / 10000000000

/-- The map-then-filter prefix of normalizeSplits: keep entries whose weight is a
finite non-negative number.  In the rational model every weight is finite, so the
Number.isFinite conjunct is always true. -/
def filteredEntries (splits : List (String × ℚ)) : List (String × ℚ) :=
  splits.filter (fun e => 0 ≤ e.2)

/-- Sum of the surviving weights (entries.reduce((s, e) => s + e.weight, 0)). -/
def entriesSum (entries : List (String × ℚ)) : ℚ :=
  entries.foldl (fun s e => s + e.2) 0

/-- Lexicographic comparison of code-unit lists, modelling the localeCompare
comparator as code-point string order. -/
def codeUnitsLe : List Nat → List Nat → Bool
  | [], _ => true
  | _ :: _, [] => false
  | x :: xs, y :: ys => if x < y then true else if y < x then false else codeUnitsLe xs ys

/-- Key order used by the sort in normalizeSplits. -/
def keyLe (a b : String) : Bool :=
  codeUnitsLe (stringCodeUnits a) (stringCodeUnits b)
/-- Stable insertion of one entry into a key-sorted list; equal keys keep the
earlier element first, matching the stable Array.prototype.sort. -/
def insertByKey (e : String × ℚ) : List (String × ℚ) → List (String × ℚ)
  | [] => [e]
  | x :: xs => if keyLe x.1 e.1 then x :: insertByKey e xs else e :: x :: xs

/-- entries.sort((a, b) => a.key.localeCompare(b.key)) as a stable insertion sort. -/
def sortByKey (entries : List (String × ℚ)) : List (String × ℚ) :=
  entries.foldl (fun acc e => insertByKey e acc) []

/-- The accumulation loop of normalizeSplits: cumulative starts at 0; every
entry but the last advances it by weight/sum plus epsilon, capped at 1 by
Math.min; the last entry is forced to exactly 1. -/
def buildCumulative (sum : ℚ) (cumulative : ℚ) : List (String × ℚ) → List NormalizedSplit
  | [] => []
  | [e] => [{ key := e.1, weight := e.2 / sum, cumulative := 1 }]
  | e :: e2 :: rest =>
      { key := e.1, weight := e.2 / sum,
        cumulative := min 1 (cumulative + e.2 / sum + epsilon) } ::
        buildCumulative sum (min 1 (cumulative + e.2 / sum + epsilon)) (e2 :: rest)

/-- Body of normalizeSplits after the entries computation: the empty guard
(entries.length === 0 returns the control bucket), the all-zero guard
(sum <= 0 returns a single bucket keyed by the FIRST surviving entry, before
sorting), and otherwise the sort plus accumulation loop. -/
def normBody : List (String × ℚ) → List NormalizedSplit
  | [] => [{ key := "control", weight := 1, cumulative := 1 }]
  | e0 :: es =>
      if entriesSum (e0 :: es) ≤ 0 then [{ key := e0.1, weight := 1, cumulative := 1 }]
      else buildCumulative (entriesSum (e0 :: es)) 0 (sortByKey (e0 :: es))

/-- normalizeSplits from splitUtils.ts. -/
def normalizeSplits (splits : List (String × ℚ)) : List NormalizedSplit :=
  normBody (filteredEntries splits)

/-! ### Variant assigner (src/unnamed/part_008, variantAssigner) -/

/-- The selection loop of getVariant: the first bucket whose cumulative boundary
exceeds r, else the last bucket.  The empty case never arises (normalizeSplits
always returns a non-empty list); the TypeScript non-null assertion would throw
there, modelled by the empty string. -/
def pickVariant (r : ℚ) (buckets : List NormalizedSplit) : String :=
  match buckets.find? (fun b => r < b.cumulative) with
  | some b => b.key
  | none =>
      match buckets.getLast? with
      | some b => b.key
      | none => ""

/-- variantAssigner.getVariant.  The getNormalizedSplitsCached memo layer is
pure caching of normalizeSplits and is dropped; the process-wide hashing
config read by getHashingConfig is passed explicitly.  The TypeScript
annotation types the first parameter string but the value is used as an
identity record { id, email }. -/
def getVariant (cfg : HashingConfig) (user : Identity) (experimentKey : String)
    (splits : List (String × ℚ)) : String :=
  let buckets := normalizeSplits splits
  let r := hashToBucketWithSalt user experimentKey { salt := cfg.salt, version := cfg.version }
  pickVariant r buckets

/-! ### Range of the hash (claim C1) -/

lemma fnv1aStep_lt (h c : Nat) : fnv1aStep h c < 4294967296 :=
  Nat.mod_lt _ (by norm_num)

lemma foldl_fnv1aStep_lt : ∀ (l : List Nat) (h : Nat), h < 4294967296 →
    l.foldl fnv1aStep h < 4294967296
  | [], _, hh => hh
  | c :: l, h, _ => foldl_fnv1aStep_lt l (fnv1aStep h c) (fnv1aStep_lt h c)

lemma fnv1a32_lt (s : String) : fnv1a32 s < 4294967296 :=
  foldl_fnv1aStep_lt _ _ (by norm_num)

/-- C1: for every input string, hashToBucket returns the 32-bit FNV-1a hash of
the string (offset basis 2166136261, XOR each character code then multiply by
16777619 with 32-bit unsigned overflow semantics) divided by 2^32, and the
result lies in the half-open interval [0, 1). -/
theorem hashToBucket_fnv_range (s : String) :
    hashToBucket s = (fnv1a32 s : ℚ) / 4294967296 ∧
    0 ≤ hashToBucket s ∧ hashToBucket s < 1 := by
  refine ⟨rfl, div_nonneg (Nat.cast_nonneg _) (by norm_num), ?_⟩
  rw [hashToBucket, div_lt_one (by norm_num)]
  exact_mod_cast fnv1a32_lt s

/-! ### Structure of the sorted entry list -/

lemma mem_insertByKey {x e : String × ℚ} {l : List (String × ℚ)}
    (h : x ∈ insertByKey e l) : x = e ∨ x ∈ l := by
  induction l with
  | nil => simpa [insertByKey] using h
  | cons y ys ih =>
    rw [insertByKey] at h
    by_cases hc : keyLe y.1 e.1
    · rw [if_pos hc] at h
      rcases List.mem_cons.mp h with h1 | h2
      · exact Or.inr (List.mem_cons.mpr (Or.inl h1))
      · rcases ih h2 with h3 | h4
        · exact Or.inl h3
        · exact Or.inr (List.mem_cons.mpr (Or.inr h4))
    · rw [if_neg hc] at h
      rcases List.mem_cons.mp h with h1 | h2
      · exact Or.inl h1
      · exact Or.inr h2

lemma mem_sortInsert_foldl {x : String × ℚ} :
    ∀ (l acc : List (String × ℚ)), x ∈ l.foldl (fun acc e => insertByKey e acc) acc →
      x ∈ acc ∨ x ∈ l
  | [], _, h => Or.inl h
  | e :: l, acc, h => by
    rcases mem_sortInsert_foldl l (insertByKey e acc) h with h1 | h2
    · rcases mem_insertByKey h1 with h3 | h4
      · exact Or.inr (by simp [h3])
      · exact Or.inl h4
    · exact Or.inr (List.mem_cons.mpr (Or.inr h2))

lemma mem_sortByKey {x : String × ℚ} {l : List (String × ℚ)} (h : x ∈ sortByKey l) :
    x ∈ l := by
  rcases mem_sortInsert_foldl l [] h with h1 | h2
  · simp at h1
  · exact h2

lemma length_insertByKey (e : String × ℚ) : ∀ l : List (String × ℚ),
    (insertByKey e l).length = l.length + 1
  | [] => rfl
  | y :: ys => by
    rw [insertByKey]
    split
    · simp [length_insertByKey e ys]
    · simp

lemma length_foldl_insert : ∀ (l acc : List (String × ℚ)),
    (l.foldl (fun acc e => insertByKey e acc) acc).length = acc.length + l.length
  | [], _ => by simp
  | e :: l, acc => by
    rw [List.foldl_cons, length_foldl_insert l (insertByKey e acc), length_insertByKey]
    simp only [List.length_cons]
    omega

lemma sortByKey_length (l : List (String × ℚ)) : (sortByKey l).length = l.length := by
  rw [sortByKey, length_foldl_insert]
  simp

lemma sortByKey_ne_nil {l : List (String × ℚ)} (h : l ≠ []) : sortByKey l ≠ [] := by
  intro hc
  apply h
  have hlen := sortByKey_length l
  rw [hc] at hlen
  exact List.length_eq_zero.mp hlen.symm

/-! ### Boundary structure of the accumulation loop (claim C3) -/

lemma buildCumulative_ne_nil (sum c : ℚ) (e : String × ℚ) (l : List (String × ℚ)) :
    buildCumulative sum c (e :: l) ≠ [] := by
  cases l <;> simp [buildCumulative]

lemma getLast?_cons_of_ne_nil {α : Type} (a : α) {l : List α} (h : l ≠ []) :
    (a :: l).getLast? = l.getLast? := by
  cases l with
  | nil => exact absurd rfl h
  | cons b t => simp [List.getLast?_cons_cons]

lemma buildCumulative_getLast (sum : ℚ) :
    ∀ (l : List (String × ℚ)) (c : ℚ), l ≠ [] →
      ∃ b, (buildCumulative sum c l).getLast? = some b ∧ b.cumulative = 1
  | [], _, h => absurd rfl h
  | [e], c, _ => ⟨_, rfl, rfl⟩
  | e :: e2 :: rest, c, _ => by
    obtain ⟨b, hb, hb1⟩ :=
      buildCumulative_getLast sum (e2 :: rest) (min 1 (c + e.2 / sum + epsilon)) (by simp)
    refine ⟨b, ?_, hb1⟩
    rw [show buildCumulative sum c (e :: e2 :: rest) =
          { key := e.1, weight := e.2 / sum,
            cumulative := min 1 (c + e.2 / sum + epsilon) } ::
            buildCumulative sum (min 1 (c + e.2 / sum + epsilon)) (e2 :: rest) from rfl,
        getLast?_cons_of_ne_nil _ (buildCumulative_ne_nil _ _ _ _)]
    exact hb

lemma chain'_of_chain {α : Type} {r : α → α → Prop} {a : α} {l : List α}
    (h : List.Chain r a l) : List.Chain' r l := by
  cases l with
  | nil => trivial
  | cons b t => exact (List.chain_cons.mp h).2

lemma buildCumulative_chain (sum : ℚ) (hsum : 0 < sum) :
    ∀ (l : List (String × ℚ)) (c : ℚ), c ≤ 1 → (∀ e ∈ l, 0 ≤ e.2) →
      List.Chain (· ≤ ·) c ((buildCumulative sum c l).map NormalizedSplit.cumulative)
  | [], _, _, _ => by simp [buildCumulative]
  | [e], c, hc, _ => by
    simp only [buildCumulative, List.map_cons, List.map_nil]
    exact List.Chain.cons hc List.Chain.nil
  | e :: e2 :: rest, c, hc, hw => by
    have hw0 : 0 ≤ e.2 := hw e (by simp)
    have hdiv : 0 ≤ e.2 / sum := div_nonneg hw0 (le_of_lt hsum)
    have heps : (0 : ℚ) < epsilon := by norm_num [epsilon]
    have hcc : c ≤ min 1 (c + e.2 / sum + epsilon) := le_min hc (by linarith)
    have hc1 : min 1 (c + e.2 / sum + epsilon) ≤ 1 := min_le_left _ _
    have hrest : ∀ x ∈ e2 :: rest, 0 ≤ x.2 :=
      fun x hx => hw x (List.mem_cons.mpr (Or.inr hx))
    have ih := buildCumulative_chain sum hsum (e2 :: rest)
      (min 1 (c + e.2 / sum + epsilon)) hc1 hrest
    simp only [buildCumulative, List.map_cons]
    exact List.Chain.cons hcc ih

/-- C3: for every split map, the cumulative boundaries returned by
normalizeSplits are non-decreasing from first to last entry, and the final
boundary equals exactly 1. -/
theorem normalizeSplits_boundaries (splits : List (String × ℚ)) :
    List.Chain' (· ≤ ·) ((normalizeSplits splits).map NormalizedSplit.cumulative) ∧
    ∃ b, (normalizeSplits splits).getLast? = some b ∧ b.cumulative = 1 := by
  rw [normalizeSplits]
  cases hE : filteredEntries splits with
  | nil => exact ⟨by simp [normBody], ⟨_, rfl, rfl⟩⟩
  | cons e0 es =>
    rw [normBody]
    by_cases hs : entriesSum (e0 :: es) ≤ 0
    · rw [if_pos hs]
      exact ⟨by simp, ⟨_, rfl, rfl⟩⟩
    · rw [if_neg hs]
      have hsum : 0 < entriesSum (e0 :: es) := not_le.mp hs
      have hw : ∀ e ∈ sortByKey (e0 :: es), 0 ≤ e.2 := by
        intro e he
        have hmem : e ∈ filteredEntries splits := hE ▸ mem_sortByKey he
        rw [filteredEntries] at hmem
        exact of_decide_eq_true (List.mem_filter.mp hmem).2
      refine ⟨chain'_of_chain (buildCumulative_chain _ hsum _ 0 zero_le_one hw), ?_⟩
      exact buildCumulative_getLast _ _ _ (sortByKey_ne_nil (by simp))

/-! ### Degenerate split maps (claim C4) -/

/-- C4 counterexample: for the all-zero split map {A: 0, B: 0}, normalizeSplits
returns a single bucket keyed by the FIRST entry key A, not by control, so the
claim that every all-zero map yields a control bucket is false. -/
theorem normalizeSplits_allZero_counterexample :
    (normalizeSplits [("A", (0 : ℚ)), ("B", 0)]).map NormalizedSplit.key = ["A"] ∧
    (normalizeSplits [("A", (0 : ℚ)), ("B", 0)]).map NormalizedSplit.key ≠ ["control"] := by
  have hE : filteredEntries [("A", (0 : ℚ)), ("B", 0)] = [("A", 0), ("B", 0)] := by decide
  have hsum : entriesSum [("A", (0 : ℚ)), ("B", 0)] ≤ 0 := by
    norm_num [entriesSum, List.foldl_cons, List.foldl_nil]
  rw [normalizeSplits, hE, normBody, if_pos hsum]
  exact ⟨rfl, by decide⟩

/-- C4 amended: if no entry survives the finite-non-negative filter (in
particular for the empty split map), normalizeSplits returns exactly the single
bucket control with boundary 1; if at least one entry survives but the
surviving weights sum to zero or less (all-zero maps), it returns exactly one
bucket with boundary 1 whose key is the first surviving entry key, not
control. -/
theorem normalizeSplits_degenerate (splits : List (String × ℚ)) :
    (filteredEntries splits = [] →
      normalizeSplits splits = [{ key := "control", weight := 1, cumulative := 1 }]) ∧
    ∀ e0 es, filteredEntries splits = e0 :: es → entriesSum (e0 :: es) ≤ 0 →
      normalizeSplits splits = [{ key := e0.1, weight := 1, cumulative := 1 }] := by
  constructor
  · intro h
    rw [normalizeSplits, h, normBody]
  · intro e0 es h hsum
    rw [normalizeSplits, h, normBody, if_pos hsum]

/-- Witness for normalizeSplits_degenerate at the empty map and at {A:0, B:0}. -/
theorem normalizeSplits_degenerate_witness :
    normalizeSplits ([] : List (String × ℚ))
        = [{ key := "control", weight := 1, cumulative := 1 }] ∧
    normalizeSplits [("A", (0 : ℚ)), ("B", 0)]
        = [{ key := "A", weight := 1, cumulative := 1 }] := by
  constructor
  · exact (normalizeSplits_degenerate []).1 rfl
  · exact (normalizeSplits_degenerate [("A", (0 : ℚ)), ("B", 0)]).2 ("A", 0) [("B", 0)]
      (by decide) (by norm_num [entriesSum, List.foldl_cons, List.foldl_nil])

/-! ### Fixed assignment scenario (claim C2) -/

/-- C2: for the experiment splits {A: 0.5, B: 0.5}, identity user-123 with
email test@example.com, experiment key exp-key and the default hashing
configuration (salt ablib-dev, version 1), the seed handed to the FNV-1a hash
is exactly ablib-dev:1:user-123test@example.com:exp-key, its hash is
3575707772, the variant is A exactly when the normalized hash falls below the
cumulative boundary of A and B otherwise, and the assigned variant is the
fixed value B. -/
theorem variantAssigner_scenario :
    saltedSeed defaultHashingConfig { id := "user-123", email := "test@example.com" } "exp-key"
        = "ablib-dev:1:user-123test@example.com:exp-key"
    ∧ fnv1a32 "ablib-dev:1:user-123test@example.com:exp-key" = 3575707772
    ∧ (normalizeSplits [("A", (1 : ℚ)/2), ("B", 1/2)]).map NormalizedSplit.cumulative
        = [1/2 + epsilon, 1]
    ∧ getVariant defaultHashingConfig { id := "user-123", email := "test@example.com" }
          "exp-key" [("A", (1 : ℚ)/2), ("B", 1/2)]
        = (if hashToBucket "ablib-dev:1:user-123test@example.com:exp-key" < 1/2 + epsilon
            then "A" else "B")
    ∧ getVariant defaultHashingConfig { id := "user-123", email := "test@example.com" }
          "exp-key" [("A", (1 : ℚ)/2), ("B", 1/2)] = "B" := by
  have hfnv : fnv1a32 "ablib-dev:1:user-123test@example.com:exp-key" = 3575707772 := by decide
  have hfe : filteredEntries [("A", (1:ℚ)/2), ("B", 1/2)] = [("A", 1/2), ("B", 1/2)] := by
    norm_num [filteredEntries, List.filter]
  have hsum : entriesSum [("A", (1:ℚ)/2), ("B", 1/2)] = 1 := by
    norm_num [entriesSum, List.foldl_cons, List.foldl_nil]
  have hk : keyLe "A" "B" = true := by decide
  have hsort : sortByKey [("A", (1:ℚ)/2), ("B", 1/2)] = [("A", 1/2), ("B", 1/2)] := by
    simp [sortByKey, insertByKey, hk]
  have hnorm : normalizeSplits [("A", (1:ℚ)/2), ("B", 1/2)]
      = [{ key := "A", weight := 1/2, cumulative := 1/2 + epsilon },
         { key := "B", weight := 1/2, cumulative := 1 }] := by
    rw [normalizeSplits, hfe, normBody, hsum, if_neg (by norm_num), hsort]
    simp only [buildCumulative]
    rw [min_eq_right (by norm_num [epsilon])]
    norm_num
  have hrv : hashToBucket "ablib-dev:1:user-123test@example.com:exp-key"
      = (3575707772 : ℚ) / 4294967296 := by
    rw [hashToBucket, hfnv]
    norm_num
  have h1 : ¬ ((3575707772 : ℚ) / 4294967296 < 1/2 + epsilon) := by norm_num [epsilon]
  have h2 : (3575707772 : ℚ) / 4294967296 < 1 := by norm_num
  have hseed2 : saltedSeed ⟨defaultHashingConfig.salt, defaultHashingConfig.version⟩
        { id := "user-123", email := "test@example.com" } "exp-key"
      = "ablib-dev:1:user-123test@example.com:exp-key" := by decide
  have hvar : getVariant defaultHashingConfig { id := "user-123", email := "test@example.com" }
      "exp-key" [("A", (1 : ℚ)/2), ("B", 1/2)] = "B" := by
    simp only [getVariant, hashToBucketWithSalt]
    rw [hseed2, hnorm, hrv, pickVariant,
      List.find?_cons_of_neg _ (by simpa using h1),
      List.find?_cons_of_pos _ (by simpa using h2)]
  refine ⟨by decide, hfnv, by rw [hnorm]; simp, ?_, hvar⟩
  rw [hvar, hrv, if_neg h1]

/-! ### JSON values and the managed storage layer
(src/packages/ab-testing-library/src/core/storage/storageManager.ts)

Values handed to setItem are JSON-serializable, and JSON.stringify followed
by JSON.parse is the identity on the JSON values they denote, so the
serialization layer is modelled as the identity: a stored cell holds either
a parsed JSON value, the empty string, or an unparseable string.  The
browser storage itself is modelled as available (the StorageUnavailableError
guard concerns non-browser environments outside this model). -/

inductive Json where
  | null : Json
  | bool (b : Bool) : Json
  | num (q : ℚ) : Json
  | str (s : String) : Json
  | arr (elems : List Json) : Json
  | obj (fields : List (String × Json)) : Json

/-- JavaScript truthiness of a parsed JSON value (NaN does not arise from
JSON.parse of finite data). -/
def Json.truthy : Json → Bool
  | .null => false
  | .bool b => b
  | .num q => decide (q ≠ 0)
  | .str s => decide (s ≠ "")
  | .arr _ => true
  | .obj _ => true

/-- Values of typeof object: null, arrays and plain objects. -/
def Json.typeofObject : Json → Bool
  | .null => true
  | .arr _ => true
  | .obj _ => true
  | _ => false

/-- Named-field read (undefined becomes none); arrays and primitives carry
none of the metadata field names. -/
def Json.getField : Json → String → Option Json
  | .obj fields, k => (fields.find? (fun f => f.1 == k)).map (fun f => f.2)
  | _, _ => none

/-- The in-operator on the values reaching it in isValidMetadata. -/
def Json.hasField (j : Json) (k : String) : Bool :=
  (j.getField k).isSome

/-- Test for typeof f === number on an optional field value. -/
def Json.isNum : Option Json → Bool
  | some (.num _) => true
  | _ => false

/-- Object-field update, modelling the spread { ...metadata, version, timestamp }
(only the fields named are replaced; non-objects are unchanged). -/
def Json.setField : Json → String → Json → Json
  | .obj fields, k, v =>
      .obj (if (fields.find? (fun f => f.1 == k)).isSome
            then fields.map (fun f => if f.1 == k then (k, v) else f)
            else fields ++ [(k, v)])
  | j, _, _ => j

/-- isValidMetadata from storageManager.ts: truthy, typeof object, a data
field present, and numeric version and timestamp fields. -/
def isValidMetadata (j : Json) : Bool :=
  j.truthy && j.typeofObject && j.hasField "data" &&
    Json.isNum (j.getField "version") && Json.isNum (j.getField "timestamp")

mutual

/-- JSON.stringify as used inside computeChecksum; double number formatting is
idealized by printing the exact rational, and string escaping is dropped (the
checksum value never influences control flow: a mismatch only logs). -/
def Json.stringify : Json → String
  | .null => "null"
  | .bool true => "true"
  | .bool false => "false"
  | .num q => toString q
  | .str s => "\"" ++ s ++ "\""
  | .arr es => "[" ++ stringifyList es ++ "]"
  | .obj fs => "\x7b" ++ stringifyFields fs ++ "\x7d"

def stringifyList : List Json → String
  | [] => ""
  | [e] => Json.stringify e
  | e :: e2 :: rest => Json.stringify e ++ "," ++ stringifyList (e2 :: rest)

def stringifyFields : List (String × Json) → String
  | [] => ""
  | [(k, v)] => "\"" ++ k ++ "\":" ++ Json.stringify v
  | (k, v) :: f2 :: rest =>
      "\"" ++ k ++ "\":" ++ Json.stringify v ++ "," ++ stringifyFields (f2 :: rest)

end

/-- ToInt32 conversion of an exact integer. -/
def toInt32 (n : ℤ) : ℤ :=
  let m := n % 4294967296
  if m < 2147483648 then m else m - 4294967296

/-- A JavaScript 32-bit left shift: truncate to int32 after shifting. -/
def shl32 (n : ℤ) (k : Nat) : ℤ :=
  toInt32 (n * 2 ^ k)

/-- One iteration of the computeChecksum loop: hash ^= code, then
hash += (hash<<1)+(hash<<4)+(hash<<7)+(hash<<8)+(hash<<24).  The running sum
lives in JavaScript doubles; its rounding above 2^53 is idealized as exact
integer addition (no proved property depends on the checksum value). -/
def checksumStep (hash : ℤ) (c : Nat) : ℤ :=
  let u := Int.toNat (hash % 4294967296)
  let s := toInt32 (Int.ofNat (Nat.xor u c))
  s + shl32 s 1 + shl32 s 4 + shl32 s 7 + shl32 s 8 + shl32 s 24

/-- computeChecksum from storageManager.ts over the model stringify; the final
base-36 rendering is idealized as decimal. -/
def computeChecksum (v : Json) : String :=
  toString ((stringCodeUnits (Json.stringify v)).foldl checksumStep 2166136261)

/-- Current storage format version. -/
def CURRENT_STORAGE_VERSION : ℚ := 1

/-- migrateData from storageManager.ts: versions below the current one are
stamped up to it, refreshing a falsy timestamp; current versions pass through.
It never returns null today; the null branch is kept for the shape of the
caller. -/
def migrateData (now : ℚ) (j : Json) : Option Json :=
  match j.getField "version" with
  | some (.num v) =>
      if v < CURRENT_STORAGE_VERSION then
        some ((j.setField "version" (.num CURRENT_STORAGE_VERSION)).setField "timestamp"
          (match j.getField "timestamp" with
           | some (.num t) => if t ≠ 0 then .num t else .num now
           | _ => .num now))
      else some j
  | _ => some j

/-- A raw localStorage cell: a string that fails JSON.parse, the empty string,
or a string parsing to a JSON value. -/
inductive RawCell where
  | invalid : RawCell
  | empty : RawCell
  | json (j : Json) : RawCell

/-- The localStorage map, first binding wins. -/
abbrev LocalStorage := List (String × RawCell)

def lsGet (st : LocalStorage) (k : String) : Option RawCell :=
  (st.find? (fun e => e.1 == k)).map (fun e => e.2)

def lsSet (st : LocalStorage) (k : String) (v : RawCell) : LocalStorage :=
  (k, v) :: st.filter (fun e => e.1 != k)

def lsRemove (st : LocalStorage) (k : String) : LocalStorage :=
  st.filter (fun e => e.1 != k)

inductive StorageError where
  | unavailable (op : String)
  | corruption (key : String)
  | quotaExceeded (key : String)
deriving DecidableEq, Repr

/-- StorageManager.getItem: missing and empty cells read as null; unparseable
content is removed and signalled as corruption; a valid envelope is migrated,
its checksum checked (mismatch only warns), and its data field returned; any
other parsed value is returned as-is with a legacy-format warning.  The pair
returned is (result, storage after the call). -/
def storageGetItem (st : LocalStorage) (key : String) (now : ℚ) :
    Except StorageError (Option Json) × LocalStorage :=
  match lsGet st key with
  | none => (.ok none, st)
  | some .empty => (.ok none, st)
  | some .invalid => (.error (.corruption key), lsRemove st key)
  | some (.json parsed) =>
      if isValidMetadata parsed then
        match migrateData now parsed with
        | none => (.error (.corruption key), lsRemove st key)
        | some migrated => (.ok (migrated.getField "data"), st)
      else (.ok (some parsed), st)

/-- The versioned envelope written by setItem. -/
def envelope (v : Json) (now : ℚ) : Json :=
  .obj [("data", v), ("version", .num CURRENT_STORAGE_VERSION), ("timestamp", .num now),
        ("checksum", .str (computeChecksum v))]

/-- StorageManager.setItem on a successful write: serialization of a JSON
value always succeeds and validates, so the envelope is stored under the key.
The quota-exceeded and corruption throws happen before any write and leave
the storage unchanged, so the round-trip claim speaks about the successful
path. -/
def storageSetItem (st : LocalStorage) (key : String) (v : Json) (now : ℚ) : LocalStorage :=
  lsSet st key (.json (envelope v now))

/-! ### Round trip through the managed storage layer (claim C9) -/

/-- C9: for every key and JSON value v, setItem followed by getItem on the
same key, with no intervening modification of the underlying storage, returns
exactly v (the envelope with version, timestamp and checksum is stripped off
by getItem) and the get leaves the storage unchanged. -/
theorem storageManager_roundtrip (st : LocalStorage) (key : String) (v : Json) (tset tget : ℚ) :
    (storageGetItem (storageSetItem st key v tset) key tget).1 = .ok (some v) ∧
    (storageGetItem (storageSetItem st key v tset) key tget).2 = storageSetItem st key v tset := by
  have hget : lsGet (storageSetItem st key v tset) key = some (.json (envelope v tset)) := by
    simp [storageSetItem, lsSet, lsGet, List.find?]
  have hmeta : isValidMetadata (envelope v tset) = true := by
    simp [isValidMetadata, envelope, Json.truthy, Json.typeofObject, Json.hasField,
      Json.getField, Json.isNum, List.find?]
  have hmig : migrateData tget (envelope v tset) = some (envelope v tset) := by
    simp [migrateData, envelope, Json.getField, List.find?, CURRENT_STORAGE_VERSION]
  have hdata : (envelope v tset).getField "data" = some v := by
    simp [envelope, Json.getField, List.find?]
  rw [storageGetItem, hget]
  simp [hmeta, hmig, hdata]

/-! ### Legacy-format reads (claim C10) -/

/-- C10: for every key whose stored string parses as valid JSON but is not a
versioned envelope (isValidMetadata rejects it), getItem returns the parsed
value itself unchanged: no StorageCorruptionError is raised and the entry is
not deleted (only a legacy-format warning is logged). -/
theorem getItem_legacy_passthrough (st : LocalStorage) (key : String) (j : Json) (now : ℚ)
    (hcell : lsGet st key = some (.json j)) (hmeta : isValidMetadata j = false) :
    storageGetItem st key now = (.ok (some j), st) := by
  rw [storageGetItem, hcell]
  simp [hmeta]

/-- Witness for getItem_legacy_passthrough at a bare numeric cell. -/
theorem getItem_legacy_passthrough_witness :
    storageGetItem [("k", RawCell.json (Json.num 5))] "k" 0
      = (.ok (some (Json.num 5)), [("k", RawCell.json (Json.num 5))]) :=
  getItem_legacy_passthrough _ "k" _ 0 rfl rfl

/-! ### Variant service
(src/packages/ab-testing-library/src/core/services/variantService.ts)

The service reads typed values through storageManager and trusts the cast,
so its state is modelled at the typed level: the outcome of the storage read
(including its typed errors) and of the remote call are explicit
parameters.  Best-effort cache repopulation and the background sync kick-off
are not tracked: the claims below concern the value returned and the error
raised. -/

structure UserVariant where
  user_id : String
  experiment_key : String
  variant : String
  updated_at : String
deriving DecidableEq, Repr

/-- The updated UserVariant built by saveUserVariantForExperiment; updated_at
is the ISO timestamp of the call. -/
def mkUserVariant (userId experimentKey variant nowIso : String) : UserVariant :=
  { user_id := userId, experiment_key := experimentKey, variant := variant,
    updated_at := nowIso }

/-- The optimistic local update of saveUserVariantForExperiment: findIndex on
experiment_key and user_id, assign in place when found, push otherwise. -/
def saveLocalVariant (variants : List UserVariant)
    (userId experimentKey variant nowIso : String) : List UserVariant :=
  match variants.findIdx? (fun v => v.experiment_key == experimentKey && v.user_id == userId) with
  | some i => variants.set i (mkUserVariant userId experimentKey variant nowIso)
  | none => variants ++ [mkUserVariant userId experimentKey variant nowIso]

/-- The composite identity of a cached assignment. -/
def keyPair (v : UserVariant) : String × String :=
  (v.user_id, v.experiment_key)

/-- Outcome of a storageManager read as seen by the service catch branches. -/
inductive StoreRead (α : Type) where
  | ok (v : Option α)
  | corrupt
  | unavailable
  | quota
  | otherFailure
deriving DecidableEq, Repr

structure VariantOperationError where
  op : String
  userId : String
  experimentKey : String
  message : String
deriving DecidableEq, Repr

/-- The local view of the cache after step 1: every storage failure other
than unavailability degrades to null. -/
def localVariantsView : StoreRead (List UserVariant) → Option (List UserVariant)
  | .ok v => v
  | _ => none

/-- Truthiness of variants && variants.length > 0. -/
def hasLocalData : Option (List UserVariant) → Bool
  | some l => decide (0 < l.length)
  | none => false

/-- variantService.getVariantsByUserId: return fresh non-empty local data
directly; on a StorageUnavailableError go straight to the remote fetch; on
other storage errors or empty or stale local data fetch remote, and when the
remote fetch throws return the non-empty local data if any (even stale) and
otherwise raise VariantOperationError.  localRead is the storage outcome,
stale the isStale() verdict, remote the remote fetch outcome. -/
def getVariantsByUserId (userId : String) (localRead : StoreRead (List UserVariant))
    (stale : Bool) (remote : Except String (Option (List UserVariant))) :
    Except VariantOperationError (Option (List UserVariant)) :=
  match localRead with
  | .unavailable =>
      match remote with
      | .ok r => .ok r
      | .error m => .error { op := "get", userId := userId, experimentKey := "all", message := m }
  | lr =>
      let variants := localVariantsView lr
      if hasLocalData variants && !stale then .ok variants
      else
        match remote with
        | .ok r => .ok r
        | .error m =>
            if hasLocalData variants then .ok variants
            else .error { op := "get", userId := userId, experimentKey := "all", message := m }

/-! ### User service (src/unnamed/part_007, userService)

This service uses raw localStorage for the ab_user key: the cell holds a
string that either parses to an identity record or is corrupt.  The remote
user store is carried in the state to make it visible that updateUser never
touches it. -/

inductive UserCell where
  | corrupt : UserCell
  | user (u : Identity) : UserCell
deriving DecidableEq, Repr

structure UserSvcState where
  abUser : Option UserCell
  remoteUsers : List Identity
deriving DecidableEq, Repr

inductive UserError where
  | storageCorruption (key : String)
  | userNotInitialized
  | userIdMismatch (currentId newId : String)
  | storageQuota (key : String)
  | network (op msg : String)
deriving DecidableEq, Repr

/-- userService.getUser: a missing cell reads as null; unparseable content is
removed and raised as StorageCorruptionError; otherwise the parsed identity
is returned.  The pair returned is (result, state after the call). -/
def userGetUser (st : UserSvcState) : Except UserError (Option Identity) × UserSvcState :=
  match st.abUser with
  | none => (.ok none, st)
  | some .corrupt => (.error (.storageCorruption "ab_user"), { st with abUser := none })
  | some (.user u) => (.ok (some u), st)

/-- userService.updateUser: read the cached identity first; a missing cached
identity raises UserNotInitializedError and a different cached id raises
UserIdMismatchError, in both cases before any write; only then is the new
identity written to ab_user (the happy-path write is modelled as
succeeding). -/
def updateUser (u : Identity) (st : UserSvcState) : Except UserError Unit × UserSvcState :=
  match userGetUser st with
  | (.error e, st2) => (.error e, st2)
  | (.ok none, st2) => (.error .userNotInitialized, st2)
  | (.ok (some cur), st2) =>
      if cur.id ≠ u.id then (.error (.userIdMismatch cur.id u.id), st2)
      else (.ok (), { st2 with abUser := some (.user u) })

/-! ### Sync queue (src/packages/ab-testing-library/src/core/storage/syncQueue.ts)

The durable queue lives under the ab_sync_queue key through storageManager;
getQueue re-parses it on every call, so only saveQueue calls change it.  The
queue is modelled as the typed record list, the syncFn outcome as a Bool,
and connectivity as online. -/

structure SyncOperation where
  id : String
  type : String
  operation : String
  data : Json
  timestamp : ℚ
  retries : Nat

/-- Maximum number of retry attempts before giving up. -/
def MAX_RETRIES : Nat := 5

/-- SyncQueue.remove: filter the record out and save. -/
def queueRemove (queue : List SyncOperation) (opId : String) : List SyncOperation :=
  queue.filter (fun op => op.id != opId)

/-- The findIndex plus retries += 1 step on the freshly read queue: the first
record with the id gets its retry counter incremented; the bumped record and
the updated in-memory array are returned when found. -/
def bumpFirst (opId : String) : List SyncOperation → Option (SyncOperation × List SyncOperation)
  | [] => none
  | q :: qs =>
      if q.id == opId then
        some ({ q with retries := q.retries + 1 }, { q with retries := q.retries + 1 } :: qs)
      else
        match bumpFirst opId qs with
        | none => none
        | some (r, qs2) => some (r, q :: qs2)

/-- SyncQueue.processOperation when online: on success the record is removed
and the queue saved; on failure the queue is re-read and the record's retry
counter incremented in memory; when the incremented counter reaches
MAX_RETRIES the record is spliced out of the in-memory array and logged as
permanently failed, but saveQueue is not called on that branch, so neither
the increment nor the splice reaches the durable queue; below the ceiling
the incremented queue is saved.  The pair returned is (success, durable
queue after the call). -/
def processOperation (op : SyncOperation) (success : Bool) (queue : List SyncOperation) :
    Bool × List SyncOperation :=
  if success then (true, queueRemove queue op.id)
  else
    match bumpFirst op.id queue with
    | none => (false, queue)
    | some (bumped, newQueue) =>
        if MAX_RETRIES ≤ bumped.retries then (false, queue)
        else (false, newQueue)

/-- SyncQueue.getByType: the records a processByType pass will attempt. -/
def getByType (queue : List SyncOperation) (t : String) : List SyncOperation :=
  queue.filter (fun op => op.type == t)

/-! ### Uniqueness of cached assignments (claim C5) -/

/-- Recursive characterization of the findIndex-then-assign-or-push step:
replace the first record with the same composite key, else append. -/
def replaceOrAppend (new : UserVariant) : List UserVariant → List UserVariant
  | [] => [new]
  | v :: vs =>
      if v.experiment_key == new.experiment_key && v.user_id == new.user_id
      then new :: vs
      else v :: replaceOrAppend new vs

lemma saveLocalVariant_eq (variants : List UserVariant) (uid ek var nowIso : String) :
    saveLocalVariant variants uid ek var nowIso
      = replaceOrAppend (mkUserVariant uid ek var nowIso) variants := by
  induction variants with
  | nil => rfl
  | cons v vs ih =>
    rw [saveLocalVariant] at ih ⊢
    rw [replaceOrAppend, List.findIdx?_cons]
    by_cases hp : (v.experiment_key == ek && v.user_id == uid) = true
    · have hp2 : v.experiment_key = ek ∧ v.user_id = uid := by simpa using hp
      simp [hp, hp2, mkUserVariant, List.set]
    · have hp2 : ¬(v.experiment_key = ek ∧ v.user_id = uid) := by simpa using hp
      cases hf : List.findIdx? (fun w => w.experiment_key == ek && w.user_id == uid) vs with
      | none =>
        rw [hf] at ih
        simp only [Option.map_none] at ih
        simp [hp, hp2, hf, mkUserVariant] at ih ⊢
        exact ih
      | some j =>
        rw [hf] at ih
        simp only [Option.map_some] at ih
        simp [hp, hp2, hf, mkUserVariant, List.set] at ih ⊢
        exact ih

lemma matchCond_iff (v new : UserVariant) :
    (v.experiment_key == new.experiment_key && v.user_id == new.user_id) = true
      ↔ keyPair v = keyPair new := by
  simp [keyPair, Prod.ext_iff, and_comm]

lemma mem_keyPair_replaceOrAppend {x : String × String} (new : UserVariant)
    (l : List UserVariant) (h : x ∈ (replaceOrAppend new l).map keyPair) :
    x = keyPair new ∨ x ∈ l.map keyPair := by
  induction l with
  | nil => simpa [replaceOrAppend] using h
  | cons v vs ih =>
    rw [replaceOrAppend] at h
    by_cases hc : (v.experiment_key == new.experiment_key && v.user_id == new.user_id) = true
    · rw [if_pos hc] at h
      simp only [List.map_cons, List.mem_cons] at h
      rcases h with h1 | h2
      · exact Or.inl h1
      · exact Or.inr (by simp [h2])
    · rw [if_neg hc] at h
      simp only [List.map_cons, List.mem_cons] at h
      rcases h with h1 | h2
      · exact Or.inr (by simp [h1])
      · rcases ih h2 with h3 | h4
        · exact Or.inl h3
        · exact Or.inr (by simp [h4])

lemma replaceOrAppend_nodup (new : UserVariant) (l : List UserVariant)
    (h : (l.map keyPair).Nodup) : ((replaceOrAppend new l).map keyPair).Nodup := by
  induction l with
  | nil => simp [replaceOrAppend]
  | cons v vs ih =>
    rw [replaceOrAppend]
    simp only [List.map_cons, List.nodup_cons] at h
    by_cases hc : (v.experiment_key == new.experiment_key && v.user_id == new.user_id) = true
    · rw [if_pos hc]
      have hkey : keyPair v = keyPair new := (matchCond_iff v new).mp hc
      simp only [List.map_cons, List.nodup_cons]
      exact ⟨hkey ▸ h.1, h.2⟩
    · rw [if_neg hc]
      have hkey : keyPair v ≠ keyPair new := fun he => hc ((matchCond_iff v new).mpr he)
      simp only [List.map_cons, List.nodup_cons]
      refine ⟨fun hmem => ?_, ih h.2⟩
      rcases mem_keyPair_replaceOrAppend new vs hmem with h1 | h2
      · exact hkey h1
      · exact h.1 h2

lemma replaceOrAppend_map_of_mem (new : UserVariant) (l : List UserVariant)
    (h : keyPair new ∈ l.map keyPair) :
    (replaceOrAppend new l).map keyPair = l.map keyPair := by
  induction l with
  | nil => simp at h
  | cons v vs ih =>
    rw [replaceOrAppend]
    by_cases hc : (v.experiment_key == new.experiment_key && v.user_id == new.user_id) = true
    · rw [if_pos hc]
      have hkey : keyPair v = keyPair new := (matchCond_iff v new).mp hc
      simp [hkey]
    · rw [if_neg hc]
      have hkey : keyPair v ≠ keyPair new := fun he => hc ((matchCond_iff v new).mpr he)
      simp only [List.map_cons, List.mem_cons] at h
      rcases h with h1 | h2
      · exact absurd h1.symm hkey
      · simp [ih h2]

lemma replaceOrAppend_of_absent (new : UserVariant) (l : List UserVariant)
    (h : keyPair new ∉ l.map keyPair) : replaceOrAppend new l = l ++ [new] := by
  induction l with
  | nil => rfl
  | cons v vs ih =>
    rw [replaceOrAppend]
    simp only [List.map_cons, List.mem_cons] at h
    push_neg at h
    have hc : ¬(v.experiment_key == new.experiment_key && v.user_id == new.user_id) = true :=
      fun hb => h.1 ((matchCond_iff v new).mp hb).symm
    rw [if_neg hc, ih h.2]
    simp

/-- C5: the cached variant list holds at most one UserVariant per
(user_id, experiment_key) pair: a save whose pair is already present keeps the
key list unchanged (in-place replacement), only a save with an absent pair
appends, a duplicate-free key list stays duplicate-free, and every sequence of
saves starting from the empty cache yields a duplicate-free key list. -/
theorem saveUserVariant_unique (variants : List UserVariant) (uid ek var nowIso : String)
    (hnodup : (variants.map keyPair).Nodup) :
    ((saveLocalVariant variants uid ek var nowIso).map keyPair).Nodup ∧
    ((uid, ek) ∈ variants.map keyPair →
      (saveLocalVariant variants uid ek var nowIso).map keyPair = variants.map keyPair) ∧
    ((uid, ek) ∉ variants.map keyPair →
      saveLocalVariant variants uid ek var nowIso
        = variants ++ [mkUserVariant uid ek var nowIso]) ∧
    ∀ calls : List (String × String × String × String),
      ((calls.foldl (fun acc c => saveLocalVariant acc c.1 c.2.1 c.2.2.1 c.2.2.2) []).map
          keyPair).Nodup := by
  rw [saveLocalVariant_eq]
  refine ⟨replaceOrAppend_nodup _ _ hnodup, ?_, ?_, ?_⟩
  · intro hmem
    exact replaceOrAppend_map_of_mem _ _ hmem
  · intro hmem
    exact replaceOrAppend_of_absent _ _ hmem
  · intro calls
    have hgen : ∀ (cs : List (String × String × String × String)) (acc : List UserVariant),
        (acc.map keyPair).Nodup →
        ((cs.foldl (fun a c => saveLocalVariant a c.1 c.2.1 c.2.2.1 c.2.2.2) acc).map
          keyPair).Nodup := by
      intro cs
      induction cs with
      | nil => intro acc h; simpa using h
      | cons c cs2 ih =>
        intro acc h
        rw [List.foldl_cons]
        refine ih _ ?_
        rw [saveLocalVariant_eq]
        exact replaceOrAppend_nodup _ _ h
    exact hgen calls [] (by simp)

/-- Witness for saveUserVariant_unique: overwriting an existing pair keeps one
entry; saving a fresh pair appends. -/
theorem saveUserVariant_unique_witness :
    (([⟨"u", "e1", "A", "t0"⟩] : List UserVariant).map keyPair).Nodup ∧
    (saveLocalVariant [⟨"u", "e1", "A", "t0"⟩] "u" "e1" "B" "t1").map keyPair
      = [("u", "e1")] ∧
    saveLocalVariant [⟨"u", "e1", "A", "t0"⟩] "u" "e2" "B" "t1"
      = [⟨"u", "e1", "A", "t0"⟩, ⟨"u", "e2", "B", "t1"⟩] := by
  have h0 : (([⟨"u", "e1", "A", "t0"⟩] : List UserVariant).map keyPair).Nodup := by
    simp [keyPair]
  refine ⟨h0, ?_, ?_⟩
  · have h := (saveUserVariant_unique [⟨"u", "e1", "A", "t0"⟩] "u" "e1" "B" "t1" h0).2.1
      (by simp [keyPair])
    simpa [keyPair] using h
  · have h := (saveUserVariant_unique [⟨"u", "e1", "A", "t0"⟩] "u" "e2" "B" "t1" h0).2.2.1
      (by simp [keyPair])
    rw [h]
    rfl

/-! ### updateUser under a different identity (claim C6) -/

/-- C6: updateUser called with an identity whose id differs from the cached
identity raises UserIdMismatchError and performs no writes: the whole state,
the remote store included, is returned unchanged; and a missing cached
identity likewise raises UserNotInitializedError with the state unchanged. -/
theorem updateUser_mismatch_no_writes (st : UserSvcState) (u cur : Identity)
    (hcur : st.abUser = some (.user cur)) (hne : cur.id ≠ u.id) :
    updateUser u st = (.error (.userIdMismatch cur.id u.id), st) ∧
    (updateUser u st).2.remoteUsers = st.remoteUsers ∧
    ∀ st2 : UserSvcState, st2.abUser = none →
      updateUser u st2 = (.error .userNotInitialized, st2) := by
  have hmain : updateUser u st = (.error (.userIdMismatch cur.id u.id), st) := by
    rw [updateUser, userGetUser, hcur]
    simp [hne]
  refine ⟨hmain, by rw [hmain], ?_⟩
  intro st2 h2
  rw [updateUser, userGetUser, h2]

/-- Witness for updateUser_mismatch_no_writes: cached u1, update with u2. -/
theorem updateUser_mismatch_no_writes_witness :
    updateUser ⟨"u2", "b@x.com"⟩
        ⟨some (.user ⟨"u1", "a@x.com"⟩), [⟨"u1", "a@x.com"⟩]⟩
      = (.error (.userIdMismatch "u1" "u2"),
         ⟨some (.user ⟨"u1", "a@x.com"⟩), [⟨"u1", "a@x.com"⟩]⟩) :=
  (updateUser_mismatch_no_writes _ _ _ rfl (by decide)).1

/-! ### Stale-local fallback of the variant read path (claim C7) -/

/-- C7: when getVariantsByUserId finds no fresh local data and the remote
fetch throws, a non-empty local list (fresh or stale) is returned with no
error raised, while a missing or empty local list makes the call raise
VariantOperationError. -/
theorem getVariants_remote_failure_fallback (userId : String) (l : List UserVariant)
    (stale : Bool) (m : String) (hne : l ≠ []) :
    getVariantsByUserId userId (.ok (some l)) stale (.error m) = .ok (some l) ∧
    getVariantsByUserId userId (.ok none) stale (.error m)
      = .error { op := "get", userId := userId, experimentKey := "all", message := m } ∧
    getVariantsByUserId userId (.ok (some [])) stale (.error m)
      = .error { op := "get", userId := userId, experimentKey := "all", message := m } := by
  have hl : hasLocalData (some l) = true := by
    cases l with
    | nil => exact absurd rfl hne
    | cons a t => simp [hasLocalData]
  refine ⟨?_, ?_, ?_⟩
  · cases stale <;> simp [getVariantsByUserId, localVariantsView, hl]
  · simp [getVariantsByUserId, localVariantsView, hasLocalData]
  · simp [getVariantsByUserId, localVariantsView, hasLocalData]

/-- Witness for getVariants_remote_failure_fallback with one stale cached
variant and a throwing remote. -/
theorem getVariants_remote_failure_fallback_witness :
    getVariantsByUserId "u" (.ok (some [⟨"u", "e", "A", "t"⟩])) true (.error "boom")
      = .ok (some [⟨"u", "e", "A", "t"⟩]) ∧
    getVariantsByUserId "u" (.ok none) true (.error "boom")
      = .error { op := "get", userId := "u", experimentKey := "all", message := "boom" } :=
  ⟨(getVariants_remote_failure_fallback "u" [⟨"u", "e", "A", "t"⟩] true "boom" (by simp)).1,
   (getVariants_remote_failure_fallback "u" [⟨"u", "e", "A", "t"⟩] true "boom" (by simp)).2.1⟩

/-! ### The retry ceiling never reaches the durable queue (claim C8)

The claim says a record that has failed MAX_RETRIES times is dropped from the
durable queue and never retried.  The source comment states the same intent,
but the branch that splices the record out of the in-memory array returns
without calling saveQueue, while every read of the queue re-parses the
durable copy; so the record survives its fifth failure in the durable queue
with its stored retry count still 4, and the next pass selects it again. -/

/-- C8: a variant record with four recorded failures fails its fifth delivery
attempt; the durable queue after processOperation still contains the record
unchanged, and the next processing pass (getByType) selects it for delivery
again — the record is never dropped. -/
theorem processOperation_fifth_failure_keeps_record :
    (processOperation ⟨"op1", "variant", "update", Json.null, 0, 4⟩ false
        [⟨"op1", "variant", "update", Json.null, 0, 4⟩]).2
      = [⟨"op1", "variant", "update", Json.null, 0, 4⟩] ∧
    getByType [⟨"op1", "variant", "update", Json.null, 0, 4⟩] "variant"
      = [⟨"op1", "variant", "update", Json.null, 0, 4⟩] :=
  ⟨rfl, rfl⟩

end ABTest
